import Mathlib

/-!
Shallow embedding of the enokiweave-node transaction ledger engine.

The definitions below are translated from the Rust sources:
  - `src/address.rs`       (Address, ZERO_ADDRESS, Address::from_hex)
  - `src/confidential.rs`  (EncryptedExactAmount: encrypt, decrypt,
                            find_exact_discrete_log, verify_greater_than,
                            verify_greater_than_u64)
  - `src/transaction.rs`   (Transaction, Amount, calculate_id)
  - `src/transaction_manager.rs` (TransactionManager: load_genesis_transactions,
                            add_transaction, verify_transaction_chain,
                            get_all_transaction_ids)

Modelling conventions:
  - machine integers are `Nat` with explicit reductions where overflow can
    occur; `u64` arithmetic follows the checked (debug-profile) semantics of
    the Rust build: an overflowing `+` or underflowing `-` is an explicit
    `panicked` outcome instead of a number;
  - secp256k1 is embedded concretely (affine coordinates over the prime
    field, point at infinity as `none`), so that the ElGamal and
    discrete-log code paths are executable;
  - SHA-256 itself is kept abstract: every function that hashes takes the
    digest function `sha : Bytes → Bytes` as an explicit argument, and
    theorems that need it assume only that digests are 32 bytes long;
  - Bulletproofs range-proof verification is likewise abstracted as an
    oracle argument `rp : Bytes → Bytes → Bool` (proof bytes, commitment
    bytes); the byte-length plumbing around it is embedded faithfully;
  - the LMDB store is an association list from key bytes to stored values;
    `put` conses and `get` takes the first match, which gives last-write-wins
    map semantics; one functional update per committed write transaction
    models LMDB's atomic commit;
  - bincode-encoded values are kept symbolic: a stored value is either the
    encoding of a `TransactionRecord` or the encoding of a bare
    `Transaction`.  Decoding the bytes of a bare `Transaction` as a
    `TransactionRecord` fails (the trailing `status` and `signature` fields
    are missing from the input), which the model reflects directly;
  - `anyhow` errors are `Except String`/`RResult.err` with abbreviated
    message text; Rust panics are `RResult.panicked`.
-/

namespace Enoki

/-- A byte, kept as `Nat` (all producers below emit values < 256). -/
abbrev Byte := Nat

/-- Byte strings. -/
abbrev Bytes := List Nat

/-- The outcome of a Rust computation: `Ok`, `Err` (anyhow), or a panic. -/
inductive RResult (α : Type) where
  | ok (a : α)
  | err (msg : String)
  | panicked (msg : String)
deriving DecidableEq, Repr

/-- Big-endian byte encoding on `k` bytes (as `u64::to_be_bytes` etc.). -/
def beBytes : Nat → Nat → Bytes
  | 0, _ => []
  | k + 1, n => beBytes k (n / 256) ++ [n % 256]

/-- `i64::to_be_bytes`: the two's-complement big-endian encoding. -/
def i64BeBytes (t : Int) : Bytes :=
  beBytes 8 (Int.toNat (t % (2 ^ 64)))

/-- Lexicographic comparison of byte slices, as Rust's `Ord` on `&[u8]`. -/
def bytesCmp : Bytes → Bytes → Ordering
  | [], [] => .eq
  | [], _ :: _ => .lt
  | _ :: _, [] => .gt
  | a :: as_, b :: bs =>
    if a < b then .lt else if b < a then .gt else bytesCmp as_ bs

/-! ## The secp256k1 curve (concrete model)

Affine points over the prime field; `none` is the point at infinity.
The curve is `y^2 = x^3 + 7` over `F_secpP`. -/

/-- The secp256k1 base field prime. -/
def secpP : Nat := 2 ^ 256 - 2 ^ 32 - 977

/-- x-coordinate of the secp256k1 generator. -/
def secpGx : Nat :=
  0x79BE667EF9DCBBAC55A06295CE870B07029BFCDB2DCE28D959F2815B16F81798

/-- y-coordinate of the secp256k1 generator. -/
def secpGy : Nat :=
  0x483ADA7726A3C4655DA4FBFC0E1108A8FD17B448A68554199C47D08FFB10D4B8

/-- A curve point: affine coordinates, or `none` for the point at infinity. -/
abbrev Point := Option (Nat × Nat)

/-- The generator `G`. -/
def secpG : Point := some (secpGx, secpGy)

/-- Fast modular exponentiation (square-and-multiply, fuel over the bits). -/
def powModAux : Nat → Nat → Nat → Nat → Nat
  | 0, _, _, _ => 1
  | f + 1, b, e, m =>
    if e = 0 then 1 % m
    else
      let rest := powModAux f (b * b % m) (e / 2) m
      if e % 2 = 1 then b * rest % m else rest

/-- `b ^ e mod m`. -/
def powMod (b e m : Nat) : Nat := powModAux 260 (b % m) e m

/-- Modular inverse in the base field (Fermat). -/
def fInv (a : Nat) : Nat := powMod a (secpP - 2) secpP

/-- Point addition on secp256k1 (affine chord-and-tangent formulas). -/
def pAdd : Point → Point → Point
  | none, q => q
  | p, none => p
  | some (x1, y1), some (x2, y2) =>
    if x1 % secpP = x2 % secpP then
      if (y1 + y2) % secpP = 0 then none
      else
        let l := 3 * x1 * x1 % secpP * fInv (2 * y1 % secpP) % secpP
        let x3 := (l * l + (secpP - x1 % secpP) + (secpP - x2 % secpP)) % secpP
        let y3 := (l * ((x1 + (secpP - x3)) % secpP) + (secpP - y1 % secpP)) % secpP
        some (x3, y3)
    else
      let l := ((y2 + (secpP - y1 % secpP)) % secpP) *
        fInv ((x2 + (secpP - x1 % secpP)) % secpP) % secpP
      let x3 := (l * l + (secpP - x1 % secpP) + (secpP - x2 % secpP)) % secpP
      let y3 := (l * ((x1 + (secpP - x3)) % secpP) + (secpP - y1 % secpP)) % secpP
      some (x3, y3)

/-- Point negation. -/
def pNeg : Point → Point
  | none => none
  | some (x, y) => some (x, (secpP - y % secpP) % secpP)

/-- Point subtraction (`-` on the curve group). -/
def pSub (p q : Point) : Point := pAdd p (pNeg q)

/-- Double-and-add scalar multiplication (LSB first). -/
def scalarMultAux : Nat → Nat → Point → Point → Point
  | 0, _, _, acc => acc
  | f + 1, k, base, acc =>
    if k = 0 then acc
    else
      scalarMultAux f (k / 2) (pAdd base base)
        (if k % 2 = 1 then pAdd acc base else acc)

/-- `k • p` on secp256k1 (semantics of the library's scalar multiplication). -/
def scalarMult (k : Nat) (p : Point) : Point := scalarMultAux 260 k p none

/-- SEC1 uncompressed encoding, `to_encoded_point(false)`:
`0x04 ‖ x ‖ y`, and the single byte `0x00` for the identity. -/
def encodeUncompressed : Point → Bytes
  | none => [0]
  | some (x, y) => 4 :: (beBytes 32 x ++ beBytes 32 y)

/-- SEC1 compressed encoding, `to_encoded_point(true)`:
`(0x02 | 0x03) ‖ x`, and the single byte `0x00` for the identity. -/
def encodeCompressed : Point → Bytes
  | none => [0]
  | some (x, y) => (if y % 2 = 0 then 2 else 3) :: beBytes 32 x

/-! ## Confidential amounts (`src/confidential.rs`) -/

/-- `EncryptedExactAmount`: ElGamal ciphertext `(c1, c2)` on secp256k1 plus
the serialized Bulletproofs range proof (kept as opaque bytes). -/
structure EncryptedExactAmount where
  c1 : Point
  c2 : Point
  range_proof : Bytes
deriving DecidableEq, Repr

/-- `EncryptedExactAmount::encrypt`.  The Rust function samples the ElGamal
scalar `r` and the Bulletproof (with its own independent blinding) from
`OsRng`; the model takes the sampled scalar and the produced proof bytes as
explicit arguments and computes `c1 = r·G`, `c2 = amount·G + r·P` exactly as
the source does. -/
def EncryptedExactAmount.encrypt (amount : Nat) (public_key : Point)
    (r : Nat) (proofBytes : Bytes) : EncryptedExactAmount :=
  { c1 := scalarMult r secpG
    c2 := pAdd (scalarMult amount secpG) (scalarMult r public_key)
    range_proof := proofBytes }

/-- The loop of `find_exact_discrete_log`: a binary search over `[low, high]`
comparing the SEC1 byte encodings of `mid·G` and the target point.  `u64`
arithmetic is checked (debug-profile semantics): `low + high` and `mid ± 1`
panic on wrap.  The search space halves every iteration, so fuel 130 is
never exhausted. -/
def findExactDiscreteLogAux (target : Point) : Nat → Nat → Nat → RResult Nat
  | 0, _, _ => .panicked "out of fuel"
  | fuel + 1, low, high =>
    if low ≤ high then
      if 2 ^ 64 ≤ low + high then .panicked "attempt to add with overflow"
      else
        let mid := (low + high) / 2
        match bytesCmp (encodeUncompressed (scalarMult mid secpG))
            (encodeUncompressed target) with
        | .eq => .ok mid
        | .lt =>
          if 2 ^ 64 ≤ mid + 1 then .panicked "attempt to add with overflow"
          else findExactDiscreteLogAux target fuel (mid + 1) high
        | .gt =>
          if mid = 0 then .panicked "attempt to subtract with overflow"
          else findExactDiscreteLogAux target fuel low (mid - 1)
    else .err "Could not find exact value"

/-- `find_exact_discrete_log(point)`: binary search over `[0, u64::MAX]`. -/
def findExactDiscreteLog (point : Point) : RResult Nat :=
  findExactDiscreteLogAux point 130 0 (2 ^ 64 - 1)

/-- `EncryptedExactAmount::decrypt`: `m_point = c2 - sk·c1`, then the
byte-order binary search. -/
def EncryptedExactAmount.decrypt (e : EncryptedExactAmount)
    (private_key : Nat) : RResult Nat :=
  findExactDiscreteLog (pSub e.c2 (scalarMult private_key e.c1))

/-- `EncryptedExactAmount::verify_greater_than_u64`.  The source converts the
65-byte (or, for the identity, 1-byte) SEC1 encoding of `diff_c2` with
`CompressedRistretto::from_slice`, which requires exactly 32 bytes and
otherwise errors; on success it verifies the range proof (abstracted as the
oracle `rp`) and finally compares the encodings of `diff_c2` and the
identity lexicographically. -/
def EncryptedExactAmount.verify_greater_than_u64 (rp : Bytes → Bytes → Bool)
    (e : EncryptedExactAmount) (value : Nat) : Except String Bool :=
  let diff_c2 := pSub e.c2 (scalarMult value secpG)
  let point_bytes := encodeUncompressed diff_c2
  if point_bytes.length = 32 then
    if rp e.range_proof point_bytes then
      .ok (bytesCmp (encodeUncompressed diff_c2) (encodeUncompressed none) = .gt)
    else .error "range proof verification failed"
  else .error "could not convert slice to CompressedRistretto"

/-- `EncryptedExactAmount::verify_greater_than`: as above on
`diff_c2 = c2 - other.c2`, verifying both range proofs against the same
compressed bytes before the lexicographic comparison. -/
def EncryptedExactAmount.verify_greater_than (rp : Bytes → Bytes → Bool)
    (e other : EncryptedExactAmount) : Except String Bool :=
  let diff_c2 := pSub e.c2 other.c2
  let point_bytes := encodeUncompressed diff_c2
  if point_bytes.length = 32 then
    if rp e.range_proof point_bytes then
      if rp other.range_proof point_bytes then
        .ok (bytesCmp (encodeUncompressed diff_c2) (encodeUncompressed none) = .gt)
      else .error "range proof verification failed"
    else .error "range proof verification failed"
  else .error "could not convert slice to CompressedRistretto"

/-! ## Hex strings and addresses (`src/address.rs`) -/

/-- Value of a hexadecimal digit character, as `hex::decode` accepts. -/
def hexDigitVal (c : Char) : Option Nat :=
  if '0' ≤ c ∧ c ≤ '9' then some (c.toNat - 48)
  else if 'a' ≤ c ∧ c ≤ 'f' then some (c.toNat - 87)
  else if 'A' ≤ c ∧ c ≤ 'F' then some (c.toNat - 55)
  else none

/-- `hex::decode`: pairs of hex digits to bytes; odd length or a non-hex
character is an error (`none`). -/
def hexDecode : List Char → Option Bytes
  | [] => some []
  | [_] => none
  | c1 :: c2 :: rest =>
    match hexDigitVal c1, hexDigitVal c2, hexDecode rest with
    | some h, some l, some bs => some ((16 * h + l) :: bs)
    | _, _, _ => none

/-- Lower-case hex digit character. -/
def hexDigitChar (n : Nat) : Char :=
  if n < 10 then Char.ofNat (48 + n) else Char.ofNat (87 + n)

/-- `hex::encode`: two lower-case digits per byte. -/
def hexEncode : Bytes → List Char
  | [] => []
  | b :: bs => hexDigitChar (b / 16 % 16) :: hexDigitChar (b % 16) :: hexEncode bs

/-- An address is an opaque 32-byte identifier. -/
abbrev Address := Bytes

/-- The all-zero genesis source address. -/
def ZERO_ADDRESS : Address := List.replicate 32 0

/-- `Address::from_hex`: hex-decode, then `copy_from_slice` into `[u8; 32]`,
which panics when the decoded length is not 32. -/
def Address.from_hex (s : List Char) : RResult Address :=
  match hexDecode s with
  | none => .err "hex decode error"
  | some bs =>
    if bs.length = 32 then .ok bs
    else .panicked "copy_from_slice length mismatch"

/-- UTF-8 bytes of an (ASCII) key string, as LMDB sees `&str` keys. -/
def strBytes (s : List Char) : Bytes := s.map Char.toNat

/-! ## Transactions (`src/transaction.rs`) -/

/-- The tagged amount: `Public(u64)` or a confidential ciphertext. -/
inductive Amount where
  | Confidential (e : EncryptedExactAmount)
  | Public (n : Nat)
deriving DecidableEq, Repr

/-- A ledger transaction (`struct Transaction`); the Rust field `from` is
`fromAddr` here (`from` is reserved in Lean) and `to` is `toAddr`. -/
structure Transaction where
  fromAddr : Address
  toAddr : Address
  amount : Amount
  timestamp : Int
  previous_transaction_id : Bytes
deriving DecidableEq, Repr

/-- The running state of an incremental SHA-256 hasher, modelled as the
bytes fed to it so far. -/
structure Sha256Hasher where
  acc : Bytes
deriving DecidableEq, Repr

/-- `Sha256::new()`. -/
def Sha256Hasher.new : Sha256Hasher := ⟨[]⟩

/-- `hasher.update(bs)` appends the bytes to the stream. -/
def Sha256Hasher.update (h : Sha256Hasher) (bs : Bytes) : Sha256Hasher :=
  ⟨h.acc ++ bs⟩

/-- `hasher.finalize()`: the digest of the accumulated stream, for an
abstract digest function `sha`. -/
def Sha256Hasher.finalize (sha : Bytes → Bytes) (h : Sha256Hasher) : Bytes :=
  sha h.acc

/-- `Transaction::calculate_id`: sequential `update` calls on `from`, `to`,
the amount-dependent bytes (compressed `c1`, compressed `c2` and the proof
bytes for `Confidential`; the 8 big-endian bytes for `Public`), the
big-endian `i64` timestamp and `previous_transaction_id`, then `finalize`. -/
def Transaction.calculate_id (sha : Bytes → Bytes) (t : Transaction) : Bytes :=
  let h := Sha256Hasher.new
  let h := h.update t.fromAddr
  let h := h.update t.toAddr
  let h :=
    match t.amount with
    | .Confidential a =>
      ((h.update (encodeCompressed a.c1)).update (encodeCompressed a.c2)).update
        a.range_proof
    | .Public n => h.update (beBytes 8 n)
  let h := h.update (i64BeBytes t.timestamp)
  let h := h.update t.previous_transaction_id
  h.finalize sha

/-- The claimed shape of the digest input: one concatenation in fixed field
order (spec §4.2). -/
def calculateIdSpecBytes (t : Transaction) : Bytes :=
  t.fromAddr ++ t.toAddr ++
    (match t.amount with
     | .Confidential a =>
       encodeCompressed a.c1 ++ encodeCompressed a.c2 ++ a.range_proof
     | .Public n => beBytes 8 n) ++
    i64BeBytes t.timestamp ++ t.previous_transaction_id

/-! ## The transaction manager (`src/transaction_manager.rs`) -/

/-- `enum TransactionStatus`. -/
inductive TransactionStatus where
  | Pending
  | Confirmed
  | Invalid
deriving DecidableEq, Repr

/-- `struct TransactionRecord`: transaction, status and detached signature
(64 signature bytes). -/
structure TransactionRecord where
  transaction : Transaction
  status : TransactionStatus
  signature : Bytes
deriving DecidableEq, Repr

/-- A value stored in LMDB, kept symbolic: either the bincode encoding of a
`TransactionRecord` (written by `load_genesis_transactions`) or of a bare
`Transaction` (written by `add_transaction`). -/
inductive StoredValue where
  | recordBytes (r : TransactionRecord)
  | txBytes (t : Transaction)
deriving DecidableEq, Repr

/-- The LMDB database: an association list from key bytes to values; `put`
conses and `get` returns the first match (last write wins). -/
abbrev Store := List (Bytes × StoredValue)

/-- `txn.get`: first binding of the key. -/
def storeGet : Store → Bytes → Option StoredValue
  | [], _ => none
  | (k, v) :: rest, key => if k = key then some v else storeGet rest key

/-- `txn.put`: bind the key (overwriting any previous binding). -/
def storePut (st : Store) (k : Bytes) (v : StoredValue) : Store := (k, v) :: st

/-- `bincode::deserialize::<TransactionRecord>` applied to a stored value.
The encoding of a bare `Transaction` is a strict prefix of a
`TransactionRecord` encoding (the `status` and `signature` fields are
missing), so bincode fails with an unexpected-end-of-input error on it. -/
def deserializeRecord : StoredValue → Except String TransactionRecord
  | .recordBytes r => .ok r
  | .txBytes _ => .error "Failed to deserialize transaction"

/-- The sentinel genesis signature `Signature::try_from([1u8; 64])`. -/
def genesisSignature : Bytes := List.replicate 64 1

/-- The record inserted for one genesis balance entry. -/
def genesisRecord (toAddr : Address) (amount : Nat) : TransactionRecord :=
  { transaction :=
      { fromAddr := ZERO_ADDRESS
        toAddr := toAddr
        amount := .Public amount
        timestamp := 0
        previous_transaction_id := List.replicate 32 0 }
    status := .Confirmed
    signature := genesisSignature }

/-- `load_genesis_transactions`: one write transaction that, for each
`(address, amount)` entry, decodes the address, builds the genesis record
and `put`s it under the address string itself as the key; the commit is the
returned store (errors abort the whole write). -/
def load_genesis_transactions : List (List Char × Nat) → Store → RResult Store
  | [], st => .ok st
  | (address, amount) :: rest, st =>
    match Address.from_hex address with
    | .err e => .err e
    | .panicked m => .panicked m
    | .ok toAddr =>
      load_genesis_transactions rest
        (storePut st (strBytes address) (.recordBytes (genesisRecord toAddr amount)))

/-- The `while !found_last_public_transaction` loop of
`verify_transaction_chain`, with explicit fuel (`none` = the loop does not
terminate).  Each step fetches `current_transaction_id`, deserializes a
`TransactionRecord`, pushes its amount, and stops on a `Public` amount; in
the `Confidential` branch the source re-assigns
`current_transaction_id = transaction_to_verify.calculate_id()` (it never
reads `previous_transaction_id`), which the model reproduces verbatim. -/
def collectChain (sha : Bytes → Bytes) :
    Nat → Store → Bytes → Transaction → List Amount →
      Option (Except String (List Amount))
  | 0, _, _, _, _ => none
  | fuel + 1, st, currentId, txv, acc =>
    match storeGet st currentId with
    | none => some (.error "Transaction not found")
    | some v =>
      match deserializeRecord v with
      | .error e => some (.error e)
      | .ok record =>
        match record.transaction.amount with
        | .Public _ => some (.ok (acc ++ [record.transaction.amount]))
        | .Confidential _ =>
          collectChain sha fuel st (Transaction.calculate_id sha txv) txv
            (acc ++ [record.transaction.amount])

/-- The `commitments_chain.windows(2)` loop: compare each consecutive pair,
propagating comparison errors, returning `Ok(false)` on the first failed
comparison and `Ok(true)` otherwise. -/
def checkCommitmentChain (rp : Bytes → Bytes → Bool) :
    List Amount → Except String Bool
  | a :: b :: rest =>
    match a, b with
    | .Confidential current, .Confidential previous =>
      match EncryptedExactAmount.verify_greater_than rp current previous with
      | .error e => .error e
      | .ok true => checkCommitmentChain rp (b :: rest)
      | .ok false => .ok false
    | .Confidential current, .Public previous =>
      match EncryptedExactAmount.verify_greater_than_u64 rp current previous with
      | .error e => .error e
      | .ok true => checkCommitmentChain rp (b :: rest)
      | .ok false => .ok false
    | _, _ => checkCommitmentChain rp (b :: rest)
  | _ => .ok true

/-- `verify_transaction_chain`: walk from
`transaction_to_verify.calculate_id()`, then run the pairwise comparison on
the collected amounts. -/
def verify_transaction_chain (sha : Bytes → Bytes) (rp : Bytes → Bytes → Bool)
    (fuel : Nat) (st : Store) (transaction_to_verify : Transaction) :
    Option (Except String Bool) :=
  match collectChain sha fuel st
      (Transaction.calculate_id sha transaction_to_verify)
      transaction_to_verify [] with
  | none => none
  | some (.error e) => some (.error e)
  | some (.ok commitments_chain) =>
    some (checkCommitmentChain rp commitments_chain)

/-- The `Transaction` value reconstructed by `add_transaction`. -/
def mkTransaction (fromAddr toAddr : Address) (amount : Amount)
    (timestamp : Int) (previous_transaction_id : Bytes) : Transaction :=
  { fromAddr := fromAddr
    toAddr := toAddr
    amount := amount
    timestamp := timestamp
    previous_transaction_id := previous_transaction_id }

/-- `add_transaction`.  ECDSA verification is the oracle
`ecdsaVerify public_key message signature` (the conversion
`VerifyingKey::from_affine` cannot fail for a well-typed `PublicKey`).  A
signature failure or a chain-verification `Err` returns an error and leaves
the store unchanged; note that the source checks only
`if let Err(err) = self.verify_transaction_chain(..)`, so an `Ok(false)`
verdict falls through to the write.  The write is one `put` of the
bincode-serialized bare `Transaction` under the 32 raw id bytes, followed by
the commit.  The result pairs the outcome with the post-state;
`none` models a non-terminating chain walk. -/
def add_transaction (sha : Bytes → Bytes) (rp : Bytes → Bytes → Bool)
    (ecdsaVerify : Bytes → Bytes → Bytes → Bool) (fuel : Nat) (st : Store)
    (fromAddr toAddr : Address) (amount : Amount) (public_key : Bytes)
    (timestamp : Int) (signature : Bytes) (previous_transaction_id : Bytes) :
    Option (Except String String × Store) :=
  let transaction :=
    mkTransaction fromAddr toAddr amount timestamp previous_transaction_id
  let message := Transaction.calculate_id sha transaction
  if ecdsaVerify public_key message signature then
    match verify_transaction_chain sha rp fuel st transaction with
    | none => none
    | some (.error e) => some (.error ("Insufficient balance: " ++ e), st)
    | some (.ok _) =>
      some (.ok (String.mk (hexEncode message)),
        storePut st message (.txBytes transaction))
  else
    some (.error "Invalid signature", st)

/-- `get_all_transaction_ids`: iterate every `(key, value)` pair, copying the
key into a `[u8; 32]` with `copy_from_slice`, which panics when the key is
not exactly 32 bytes long. -/
def get_all_transaction_ids : Store → RResult (List Bytes)
  | [] => .ok []
  | (k, _) :: rest =>
    if k.length = 32 then
      match get_all_transaction_ids rest with
      | .ok ids => .ok (k :: ids)
      | .err e => .err e
      | .panicked m => .panicked m
    else .panicked "copy_from_slice length mismatch"

/-! ## Concrete instances for the scenarios -/

/-- Hex string of address `A` for the genesis manifest: 64 `'1'` digits. -/
def hexA : List Char := List.replicate 64 '1'

/-- Hex string of address `B`: 64 `'2'` digits. -/
def hexB : List Char := List.replicate 64 '2'

/-- Address `A` = 32 bytes `0x11`. -/
def addrA : Address := List.replicate 32 17

/-- Address `B` = 32 bytes `0x22`. -/
def addrB : Address := List.replicate 32 34

/-- The 32-byte zero hash. -/
def zero32 : Bytes := List.replicate 32 0

/-- The store after `load_genesis_transactions` of the manifest `{A: 100}`. -/
def st1 : Store := [(strBytes hexA, .recordBytes (genesisRecord addrA 100))]

/-- Dummy SEC1 public-key bytes for scenarios where the signature oracle
decides the outcome. -/
def pkDummy : Bytes := List.replicate 33 2

/-- Dummy 64-byte signature for the same scenarios. -/
def sigDummy : Bytes := List.replicate 64 7

/-- Key pair for the decryption scenario: `sk = 7`, `pk = 7·G`. -/
def pkC : Point := scalarMult 7 secpG

/-- `encrypt(1, pk)` with sampled ElGamal scalar `r = 5` and an arbitrary
range proof (the decryption path never reads it). -/
def encC : EncryptedExactAmount := EncryptedExactAmount.encrypt 1 pkC 5 [9, 9, 9]

/-- A concrete digest stand-in (all-zero 32-byte output) used to instantiate
the abstract SHA-256 argument in witnesses. -/
def shaZero : Bytes → Bytes := fun _ => List.replicate 32 0

/-- A digest stand-in with constant output `0x03` bytes. -/
def shaThree : Bytes → Bytes := fun _ => List.replicate 32 3

/-- A digest stand-in with constant output `0x09` bytes. -/
def shaNine : Bytes → Bytes := fun _ => List.replicate 32 9

/-- A range-proof oracle that accepts everything. -/
def rpTrue : Bytes → Bytes → Bool := fun _ _ => true

/-- A signature oracle that accepts everything (a correctly signed input). -/
def ecdsaTrue : Bytes → Bytes → Bytes → Bool := fun _ _ _ => true

/-- A signature oracle that rejects everything. -/
def ecdsaFalse : Bytes → Bytes → Bytes → Bool := fun _ _ _ => false

/-- Store for the persist-path scenario: the (degenerate) state in which the
submitted transaction's own id is bound to a `Public`-amount record, so that
`verify_transaction_chain` returns `Ok` and the write runs. -/
def stW4 : Store := [(List.replicate 32 9, .recordBytes (genesisRecord addrB 5))]

/-- The transaction submitted in scenario S1: `A → B`, public 30. -/
def txS1 : Transaction := mkTransaction addrA addrB (.Public 30) 1 zero32

/-- The transaction of the persist-path scenario. -/
def txW4 : Transaction := mkTransaction addrA addrB (.Public 3) 2 zero32

/-- A digest stand-in with constant one-byte output. -/
def shaOne : Bytes → Bytes := fun _ => [1]

/-- Transaction used to instantiate the id-computation claim. -/
def txW8 : Transaction := mkTransaction addrA addrB (.Public 3) 5 zero32

/-- Transaction used to instantiate the missing-record scenario. -/
def txW3 : Transaction := mkTransaction addrB addrA (.Public 1) 0 zero32

/-- The hex id string returned by the persist-path scenario. -/
def sW4 : String := String.mk (hexEncode (List.replicate 32 9))

/-- The store after the persist-path scenario's single write. -/
def stW4' : Store := (List.replicate 32 9, .txBytes txW4) :: stW4

/-- Hex string of address `C`: 64 `'3'` digits. -/
def hexC : List Char := List.replicate 64 '3'

/-- Address `C` = 32 bytes `0x33`. -/
def addrC : Address := List.replicate 32 51

/-! ## Helper lemmas -/

theorem beBytes_length (k n : Nat) : (beBytes k n).length = k := by
  induction k generalizing n with
  | zero => rfl
  | succ k ih => simp [beBytes, ih]

theorem encodeUncompressed_length (p : Point) :
    (encodeUncompressed p).length = 1 ∨ (encodeUncompressed p).length = 65 := by
  cases p with
  | none => exact Or.inl rfl
  | some xy =>
    obtain ⟨x, y⟩ := xy
    exact Or.inr (by simp [encodeUncompressed, beBytes_length])

theorem encodeUncompressed_length_ne_32 (p : Point) :
    (encodeUncompressed p).length ≠ 32 := by
  rcases encodeUncompressed_length p with h | h <;> omega

theorem storeGet_none_of_length (st : Store) (key : Bytes)
    (h : ∀ kv ∈ st, (kv.1 : Bytes).length ≠ key.length) :
    storeGet st key = none := by
  induction st with
  | nil => rfl
  | cons kv rest ih =>
    obtain ⟨k, v⟩ := kv
    have hk : k ≠ key := by
      intro he
      exact h (k, v) (List.mem_cons_self _ _) (by rw [he])
    simp only [storeGet, if_neg hk]
    exact ih fun kv hm => h kv (List.mem_cons_of_mem _ hm)

theorem collectChain_conf_diverges (sha : Bytes → Bytes) (st : Store)
    (txv : Transaction) (v : StoredValue) (r : TransactionRecord)
    (e : EncryptedExactAmount)
    (hget : storeGet st (Transaction.calculate_id sha txv) = some v)
    (hdes : deserializeRecord v = .ok r)
    (hamt : r.transaction.amount = .Confidential e) :
    ∀ fuel acc,
      collectChain sha fuel st (Transaction.calculate_id sha txv) txv acc = none := by
  intro fuel
  induction fuel with
  | zero => intro acc; rfl
  | succ f ih =>
    intro acc
    simp only [collectChain, hget, hdes, hamt]
    exact ih _

theorem verify_chain_not_found (sha : Bytes → Bytes) (rp : Bytes → Bytes → Bool)
    (fuel : Nat) (st : Store) (txv : Transaction)
    (h : storeGet st (Transaction.calculate_id sha txv) = none) :
    verify_transaction_chain sha rp (fuel + 1) st txv =
      some (.error "Transaction not found") := by
  simp [verify_transaction_chain, collectChain, h]

theorem verify_greater_than_errors (rp : Bytes → Bytes → Bool)
    (e other : EncryptedExactAmount) :
    EncryptedExactAmount.verify_greater_than rp e other =
      .error "could not convert slice to CompressedRistretto" := by
  simp [EncryptedExactAmount.verify_greater_than,
    encodeUncompressed_length_ne_32 (pSub e.c2 other.c2)]

theorem verify_greater_than_u64_errors (rp : Bytes → Bytes → Bool)
    (e : EncryptedExactAmount) (value : Nat) :
    EncryptedExactAmount.verify_greater_than_u64 rp e value =
      .error "could not convert slice to CompressedRistretto" := by
  simp [EncryptedExactAmount.verify_greater_than_u64,
    encodeUncompressed_length_ne_32 (pSub e.c2 (scalarMult value secpG))]

theorem verify_chain_cases (sha : Bytes → Bytes) (rp : Bytes → Bytes → Bool)
    (fuel : Nat) (st : Store) (txv : Transaction) :
    verify_transaction_chain sha rp fuel st txv = none ∨
      (∃ msg, verify_transaction_chain sha rp fuel st txv = some (.error msg)) ∨
      verify_transaction_chain sha rp fuel st txv = some (.ok true) := by
  cases fuel with
  | zero => exact Or.inl rfl
  | succ f =>
    cases hget : storeGet st (Transaction.calculate_id sha txv) with
    | none =>
      exact Or.inr (Or.inl ⟨"Transaction not found",
        verify_chain_not_found sha rp f st txv hget⟩)
    | some v =>
      cases hdes : deserializeRecord v with
      | error e =>
        refine Or.inr (Or.inl ⟨e, ?_⟩)
        simp [verify_transaction_chain, collectChain, hget, hdes]
      | ok record =>
        cases hamt : record.transaction.amount with
        | Public n =>
          refine Or.inr (Or.inr ?_)
          simp [verify_transaction_chain, collectChain, hget, hdes, hamt,
            checkCommitmentChain]
        | Confidential e =>
          refine Or.inl ?_
          have hdiv := collectChain_conf_diverges sha st txv v record e hget hdes hamt
          simp [verify_transaction_chain, hdiv (f + 1) []]

theorem add_transaction_cases (sha : Bytes → Bytes) (rp : Bytes → Bytes → Bool)
    (ecdsaVerify : Bytes → Bytes → Bytes → Bool) (fuel : Nat) (st : Store)
    (fromAddr toAddr : Address) (amount : Amount) (public_key : Bytes)
    (timestamp : Int) (signature : Bytes) (previous_transaction_id : Bytes)
    (r : Except String String) (st' : Store)
    (h : add_transaction sha rp ecdsaVerify fuel st fromAddr toAddr amount
        public_key timestamp signature previous_transaction_id = some (r, st')) :
    ((∃ msg, r = .error msg) ∧ st' = st) ∨
      (r = .ok (String.mk (hexEncode (Transaction.calculate_id sha
          (mkTransaction fromAddr toAddr amount timestamp previous_transaction_id)))) ∧
        st' = storePut st
          (Transaction.calculate_id sha
            (mkTransaction fromAddr toAddr amount timestamp previous_transaction_id))
          (.txBytes (mkTransaction fromAddr toAddr amount timestamp
            previous_transaction_id))) := by
  simp only [add_transaction] at h
  cases hec : ecdsaVerify public_key
      (Transaction.calculate_id sha
        (mkTransaction fromAddr toAddr amount timestamp previous_transaction_id))
      signature with
  | false =>
    rw [hec] at h
    simp only [Bool.false_eq_true, if_false, Option.some.injEq, Prod.mk.injEq] at h
    exact Or.inl ⟨⟨_, h.1.symm⟩, h.2.symm⟩
  | true =>
    rw [hec] at h
    simp only [if_true] at h
    cases hv : verify_transaction_chain sha rp fuel st
        (mkTransaction fromAddr toAddr amount timestamp previous_transaction_id) with
    | none => rw [hv] at h; exact absurd h (by simp)
    | some res =>
      rw [hv] at h
      cases res with
      | error e =>
        simp only [Option.some.injEq, Prod.mk.injEq] at h
        exact Or.inl ⟨⟨_, h.1.symm⟩, h.2.symm⟩
      | ok b =>
        simp only [Option.some.injEq, Prod.mk.injEq] at h
        exact Or.inr ⟨h.1.symm, h.2.symm⟩

theorem load_genesis_aux (m : List (List Char × Nat)) :
    ∀ st : Store,
      (∀ e ∈ m, ∃ bs, hexDecode e.1 = some bs ∧ bs.length = 32) →
      ∃ st', load_genesis_transactions m st = .ok st' ∧
        (∀ k, (∀ e ∈ m, strBytes e.1 ≠ k) → storeGet st' k = storeGet st k) ∧
        (∀ kv ∈ st', kv ∈ st ∨ ∃ e ∈ m, ∃ addr,
            Address.from_hex e.1 = .ok addr ∧
            kv = (strBytes e.1, StoredValue.recordBytes (genesisRecord addr e.2))) ∧
        ((m.map fun e => strBytes e.1).Nodup →
          ∀ e ∈ m, ∃ addr, Address.from_hex e.1 = .ok addr ∧
            storeGet st' (strBytes e.1) =
              some (.recordBytes (genesisRecord addr e.2))) := by
  induction m with
  | nil =>
    intro st _
    exact ⟨st, rfl, fun _ _ => rfl, fun kv hkv => Or.inl hkv,
      fun _ e he => absurd he (List.not_mem_nil e)⟩
  | cons hd rest ih =>
    intro st hvalid
    obtain ⟨a, n⟩ := hd
    obtain ⟨bs, hdec, hlen⟩ := hvalid (a, n) (List.mem_cons_self _ _)
    have hfrom : Address.from_hex a = .ok bs := by
      simp [Address.from_hex, hdec, hlen]
    have hload : load_genesis_transactions ((a, n) :: rest) st =
        load_genesis_transactions rest
          (storePut st (strBytes a) (.recordBytes (genesisRecord bs n))) := by
      simp [load_genesis_transactions, hfrom]
    obtain ⟨st', hst', hpres, hmem, hlook⟩ :=
      ih (storePut st (strBytes a) (.recordBytes (genesisRecord bs n)))
        (fun e he => hvalid e (List.mem_cons_of_mem _ he))
    refine ⟨st', by rw [hload]; exact hst', ?_, ?_, ?_⟩
    · intro k hk
      have h1 :=
        hpres k (fun e he => hk e (List.mem_cons_of_mem _ he))
      have h2 : strBytes a ≠ k := hk (a, n) (List.mem_cons_self _ _)
      rw [h1]
      simp only [storePut, storeGet, if_neg h2]
    · intro kv hkv
      rcases hmem kv hkv with hin | ⟨e, he, addr, haddr, hkv'⟩
      · rcases List.mem_cons.mp hin with heq | hin'
        · exact Or.inr ⟨(a, n), List.mem_cons_self _ _, bs, hfrom, heq⟩
        · exact Or.inl hin'
      · exact Or.inr ⟨e, List.mem_cons_of_mem _ he, addr, haddr, hkv'⟩
    · intro hnodup e he
      rw [List.map_cons, List.nodup_cons] at hnodup
      obtain ⟨hnotin, hnodup'⟩ := hnodup
      rcases List.mem_cons.mp he with heq | he'
      · subst heq
        refine ⟨bs, hfrom, ?_⟩
        have hne : ∀ e' ∈ rest, strBytes e'.1 ≠ strBytes a := by
          intro e' he' hcontra
          exact hnotin (hcontra ▸ List.mem_map_of_mem _ he')
        rw [hpres (strBytes a) hne]
        simp [storePut, storeGet]
      · exact hlook hnodup' e he'

theorem get_all_ids_ok_of_all32 (st : Store)
    (h : ∀ kv ∈ st, (kv.1 : Bytes).length = 32) :
    ∃ ids, get_all_transaction_ids st = .ok ids := by
  induction st with
  | nil => exact ⟨[], rfl⟩
  | cons kv rest ih =>
    obtain ⟨k, v⟩ := kv
    have hk : k.length = 32 := h (k, v) (List.mem_cons_self _ _)
    obtain ⟨ids, hids⟩ := ih fun kv hm => h kv (List.mem_cons_of_mem _ hm)
    exact ⟨k :: ids, by simp [get_all_transaction_ids, hk, hids]⟩

theorem get_all_ids_panics_of_bad (st : Store)
    (h : ∃ kv ∈ st, (kv.1 : Bytes).length ≠ 32) :
    ∃ msg, get_all_transaction_ids st = .panicked msg := by
  induction st with
  | nil =>
    obtain ⟨kv, hm, _⟩ := h
    exact absurd hm (List.not_mem_nil kv)
  | cons kv0 rest ih =>
    obtain ⟨k, v⟩ := kv0
    by_cases hk : k.length = 32
    · obtain ⟨kv, hm, hlen⟩ := h
      rcases List.mem_cons.mp hm with heq | hin
      · exact absurd (by rw [heq] at hlen; exact hlen) (by simp [hk])
      · obtain ⟨msg, hmsg⟩ := ih ⟨kv, hin, hlen⟩
        exact ⟨msg, by simp [get_all_transaction_ids, hk, hmsg]⟩
    · exact ⟨"copy_from_slice length mismatch",
        by simp [get_all_transaction_ids, hk]⟩

/-! ## Claim theorems -/

/-- C1: the claim says that a failed pairwise commitment comparison makes
`add_transaction` fail with `InsufficientBalance` and write nothing.  On the
code this situation cannot arise: (i) both comparison functions always
return `Err` (the 65- or 1-byte SEC1 encoding is handed to
`CompressedRistretto::from_slice`, which needs exactly 32 bytes), never
`Ok(false)`; and (ii) `verify_transaction_chain` never returns `Ok(false)`
at all — the walk re-reads the record at the new transaction's own id, so a
terminating walk collects a single `Public` amount and the comparison loop
has no consecutive pair to inspect.  (`add_transaction` furthermore checks
only `if let Err(..)`, so an `Ok(false)` verdict would not stop the write.) -/
theorem commitment_comparison_failure_unreachable (sha : Bytes → Bytes)
    (rp : Bytes → Bytes → Bool) (fuel : Nat) (st : Store) (txv : Transaction)
    (e other : EncryptedExactAmount) (value : Nat) :
    EncryptedExactAmount.verify_greater_than rp e other =
      .error "could not convert slice to CompressedRistretto" ∧
    EncryptedExactAmount.verify_greater_than_u64 rp e value =
      .error "could not convert slice to CompressedRistretto" ∧
    (verify_transaction_chain sha rp fuel st txv = none ∨
      (∃ msg, verify_transaction_chain sha rp fuel st txv = some (.error msg)) ∨
      verify_transaction_chain sha rp fuel st txv = some (.ok true)) :=
  ⟨verify_greater_than_errors rp e other,
    verify_greater_than_u64_errors rp e value,
    verify_chain_cases sha rp fuel st txv⟩

/-- C2: scenario S1 — genesis `{A: 100}` followed by a correctly signed
public transfer `A → B` of 30.  The claim says it succeeds and updates both
balances; on the code it fails: the chain walk looks up the new
transaction's own 32-byte id, the store only holds the genesis record under
the 64-byte hex string key, so `add_transaction` returns
`Insufficient balance: Transaction not found` and writes nothing. -/
theorem s1_public_transfer_fails (sha : Bytes → Bytes) (rp : Bytes → Bytes → Bool)
    (hsha : ∀ bs, (sha bs).length = 32) :
    load_genesis_transactions [(hexA, 100)] [] = .ok st1 ∧
    add_transaction sha rp ecdsaTrue 10 st1 addrA addrB (.Public 30) pkDummy 1
        sigDummy zero32 =
      some (.error "Insufficient balance: Transaction not found", st1) := by
  refine ⟨by decide, ?_⟩
  have hid : (Transaction.calculate_id sha txS1).length = 32 := hsha _
  have hnone : storeGet st1 (Transaction.calculate_id sha txS1) = none := by
    apply storeGet_none_of_length
    intro kv hkv
    simp only [st1, List.mem_singleton] at hkv
    subst hkv
    rw [hid]
    decide
  have hver := verify_chain_not_found sha rp 9 st1 txS1 hnone
  simp only [add_transaction, ecdsaTrue, if_true]
  rw [show mkTransaction addrA addrB (Amount.Public 30) 1 zero32 = txS1 from rfl]
  rw [hver]
  rfl

/-- Witness for C2 at the concrete digest stand-in. -/
theorem s1_public_transfer_fails_witness :
    load_genesis_transactions [(hexA, 100)] [] = .ok st1 ∧
    add_transaction shaZero rpTrue ecdsaTrue 10 st1 addrA addrB (.Public 30)
        pkDummy 1 sigDummy zero32 =
      some (.error "Insufficient balance: Transaction not found", st1) :=
  s1_public_transfer_fails shaZero rpTrue (fun bs => by simp [shaZero])

/-- C3: the claim describes a walk from the sender's head of chain through
`previous_transaction_id` pointers, failing with `ChainBroken` on a missing
record.  On the code the walk's first (and only) lookup key is the new
transaction's own id — the hypothesis below is about exactly that key, and
whenever it is absent the result is the error string
`Transaction not found`, surfaced by `add_transaction` as
`Insufficient balance: Transaction not found` (not as a `ChainBroken`
error); `previous_transaction_id` is never dereferenced. -/
theorem chain_walk_missing_record (sha : Bytes → Bytes) (rp : Bytes → Bytes → Bool)
    (fuel : Nat) (st : Store) (fromAddr toAddr : Address) (amount : Amount)
    (public_key : Bytes) (timestamp : Int) (signature : Bytes) (prev : Bytes)
    (h : storeGet st (Transaction.calculate_id sha
        (mkTransaction fromAddr toAddr amount timestamp prev)) = none) :
    verify_transaction_chain sha rp (fuel + 1) st
        (mkTransaction fromAddr toAddr amount timestamp prev) =
      some (.error "Transaction not found") ∧
    add_transaction sha rp ecdsaTrue (fuel + 1) st fromAddr toAddr amount
        public_key timestamp signature prev =
      some (.error "Insufficient balance: Transaction not found", st) := by
  have hver := verify_chain_not_found sha rp fuel st
    (mkTransaction fromAddr toAddr amount timestamp prev) h
  refine ⟨hver, ?_⟩
  simp only [add_transaction, ecdsaTrue, if_true]
  rw [hver]
  rfl

/-- Witness for C3 on the empty store. -/
theorem chain_walk_missing_record_witness :
    verify_transaction_chain shaThree rpTrue 5 [] txW3 =
      some (.error "Transaction not found") ∧
    add_transaction shaThree rpTrue ecdsaTrue 5 [] addrB addrA (.Public 1)
        pkDummy 0 sigDummy zero32 =
      some (.error "Insufficient balance: Transaction not found", []) :=
  chain_walk_missing_record shaThree rpTrue 4 [] addrB addrA (.Public 1)
    pkDummy 0 sigDummy zero32 rfl

/-- C4: the claim says a successful `add_transaction` appends the stored
record at both `hex(from):height_from` and `hex(to):height_to` in one write
transaction.  On the code, whenever `add_transaction` returns `Ok`, the
post-state is exactly one `put` of the bincode-serialized bare
`Transaction` (no status, no signature) under the raw 32-byte id — there is
no sender chain key, no recipient chain key and no height anywhere. -/
theorem add_transaction_persists_single_put (sha : Bytes → Bytes)
    (rp : Bytes → Bytes → Bool) (ecdsaVerify : Bytes → Bytes → Bytes → Bool)
    (fuel : Nat) (st : Store) (fromAddr toAddr : Address) (amount : Amount)
    (public_key : Bytes) (timestamp : Int) (signature : Bytes) (prev : Bytes)
    (s : String) (st' : Store)
    (h : add_transaction sha rp ecdsaVerify fuel st fromAddr toAddr amount
        public_key timestamp signature prev = some (.ok s, st')) :
    st' = storePut st
        (Transaction.calculate_id sha (mkTransaction fromAddr toAddr amount timestamp prev))
        (.txBytes (mkTransaction fromAddr toAddr amount timestamp prev)) ∧
      s = String.mk (hexEncode (Transaction.calculate_id sha
        (mkTransaction fromAddr toAddr amount timestamp prev))) := by
  rcases add_transaction_cases sha rp ecdsaVerify fuel st fromAddr toAddr amount
      public_key timestamp signature prev (.ok s) st' h with
    ⟨⟨msg, hmsg⟩, _⟩ | ⟨hok, hst⟩
  · exact absurd hmsg (by simp)
  · simp only [Except.ok.injEq] at hok
    exact ⟨hst, hok⟩

/-- Witness for C4: a store in which the submitted transaction's own id is
bound to a `Public` record, so the write path actually runs. -/
theorem add_transaction_persists_single_put_witness :
    add_transaction shaNine rpTrue ecdsaTrue 5 stW4 addrA addrB (.Public 3)
        pkDummy 2 sigDummy zero32 = some (.ok sW4, stW4') ∧
    (stW4' = storePut stW4 (Transaction.calculate_id shaNine txW4) (.txBytes txW4) ∧
      sW4 = String.mk (hexEncode (Transaction.calculate_id shaNine txW4))) :=
  ⟨by rfl,
    add_transaction_persists_single_put shaNine rpTrue ecdsaTrue 5 stW4 addrA
      addrB (.Public 3) pkDummy 2 sigDummy zero32 sW4 stW4' (by rfl)⟩

set_option maxRecDepth 40000 in
/-- C5: the claim says `decrypt` is a left inverse of `encrypt` for every
key pair and every amount in `[0, 2⁶⁴)`.  On the code it is not:
`find_exact_discrete_log` binary-searches over the lexicographic order of
SEC1 point encodings, which is not monotone in the scalar.  At `sk = 7`,
`amount = 1`, ElGamal scalar `r = 5`, the first probe at
`mid = 2⁶³ − 1` compares `Less`, so `low` becomes `2⁶³` and the next
iteration's `low + high` overflows `u64` — a panic in a debug build (and a
wild wrap in release) instead of returning 1. -/
theorem decrypt_of_encrypt_panics :
    EncryptedExactAmount.decrypt encC 7 =
      .panicked "attempt to add with overflow" := by
  decide

/-- C6: if ECDSA verification of the signature over the computed id fails,
`add_transaction` returns the `Invalid signature` error before touching
storage, for every state and input. -/
theorem invalid_signature_rejected (sha : Bytes → Bytes)
    (rp : Bytes → Bytes → Bool) (ecdsaVerify : Bytes → Bytes → Bytes → Bool)
    (fuel : Nat) (st : Store) (fromAddr toAddr : Address) (amount : Amount)
    (public_key : Bytes) (timestamp : Int) (signature : Bytes) (prev : Bytes)
    (h : ecdsaVerify public_key
        (Transaction.calculate_id sha (mkTransaction fromAddr toAddr amount timestamp prev))
        signature = false) :
    add_transaction sha rp ecdsaVerify fuel st fromAddr toAddr amount
        public_key timestamp signature prev =
      some (.error "Invalid signature", st) := by
  simp [add_transaction, h]

/-- Witness for C6 with the all-rejecting signature oracle. -/
theorem invalid_signature_rejected_witness :
    ecdsaFalse pkDummy
        (Transaction.calculate_id shaZero (mkTransaction addrA addrB (.Public 2) 0 zero32))
        sigDummy = false ∧
    add_transaction shaZero rpTrue ecdsaFalse 3 [] addrA addrB (.Public 2)
        pkDummy 0 sigDummy zero32 = some (.error "Invalid signature", []) :=
  ⟨rfl, invalid_signature_rejected shaZero rpTrue ecdsaFalse 3 [] addrA addrB
    (.Public 2) pkDummy 0 sigDummy zero32 rfl⟩

/-- C7: `load_genesis_transactions`, for every `(address, amount)` manifest
entry (well-formed 64-hex-digit addresses, pairwise distinct), commits in
one write transaction a store in which the entry's key is bound to the
record `{from = zero address, to = address, amount = Public(amount),
timestamp = 0, previous_transaction_id = zero hash}` with status
`Confirmed` and the sentinel signature. -/
theorem load_genesis_inserts_records (m : List (List Char × Nat)) (st : Store)
    (hvalid : ∀ e ∈ m, ∃ bs, hexDecode e.1 = some bs ∧ bs.length = 32)
    (hnodup : (m.map fun e => strBytes e.1).Nodup) :
    ∃ st', load_genesis_transactions m st = .ok st' ∧
      ∀ e ∈ m, ∃ addr, Address.from_hex e.1 = .ok addr ∧
        storeGet st' (strBytes e.1) =
          some (.recordBytes (genesisRecord addr e.2)) := by
  obtain ⟨st', h1, _, _, h4⟩ := load_genesis_aux m st hvalid
  exact ⟨st', h1, h4 hnodup⟩

/-- Witness for C7 on the one-entry manifest `{C(hex '2'...): 5}`. -/
theorem load_genesis_inserts_records_witness :
    ∃ st', load_genesis_transactions [(hexB, 5)] [] = .ok st' ∧
      ∀ e ∈ [(hexB, 5)], ∃ addr, Address.from_hex e.1 = .ok addr ∧
        storeGet st' (strBytes e.1) =
          some (.recordBytes (genesisRecord addr e.2)) :=
  load_genesis_inserts_records [(hexB, 5)] []
    (by
      intro e he
      simp only [List.mem_singleton] at he
      subst he
      exact ⟨addrB, by decide, by decide⟩)
    (by simp)

/-- C8: `calculate_id` is the digest of one concatenation in fixed field
order — `from`, `to`, the amount-dependent bytes (8 big-endian bytes for
`Public`; compressed `c1`, compressed `c2`, proof bytes for
`Confidential`), the big-endian 64-bit timestamp, then
`previous_transaction_id` — and it is deterministic: transactions with
equal fields have equal ids. -/
theorem calculate_id_fixed_order (sha : Bytes → Bytes) (t1 t2 : Transaction) :
    Transaction.calculate_id sha t1 = sha (calculateIdSpecBytes t1) ∧
    (t1.fromAddr = t2.fromAddr → t1.toAddr = t2.toAddr → t1.amount = t2.amount →
      t1.timestamp = t2.timestamp →
      t1.previous_transaction_id = t2.previous_transaction_id →
      Transaction.calculate_id sha t1 = Transaction.calculate_id sha t2) := by
  constructor
  · cases t1 with
    | mk f t a ts p =>
      cases a <;>
        simp [Transaction.calculate_id, calculateIdSpecBytes, Sha256Hasher.new,
          Sha256Hasher.update, Sha256Hasher.finalize, List.append_assoc]
  · intro h1 h2 h3 h4 h5
    cases t1
    cases t2
    simp_all

/-- Witness for C8 at a concrete digest stand-in and transaction. -/
theorem calculate_id_fixed_order_witness :
    Transaction.calculate_id shaOne txW8 = shaOne (calculateIdSpecBytes txW8) ∧
    Transaction.calculate_id shaOne txW8 = Transaction.calculate_id shaOne txW8 :=
  ⟨(calculate_id_fixed_order shaOne txW8 txW8).1,
    (calculate_id_fixed_order shaOne txW8 txW8).2 rfl rfl rfl rfl rfl⟩

/-- C9 counterexample: the claim says every persisted key is
`hex(address) ‖ ':' ‖ decimal(height)` and every value a `StoredRecord`
encoding.  Keys of that shape always contain the colon byte 58; the genesis
load of `{A: 100}` binds the single key `hex(A)` — 64 hex-digit bytes with
no colon at all (and no height). -/
theorem genesis_key_lacks_height_suffix :
    load_genesis_transactions [(hexA, 100)] [] = .ok st1 ∧
    (strBytes hexA).contains 58 = false := by
  decide

/-- C9 (amended): genesis loading persists each record under the plain
UTF-8 `hex(address)` key (no colon, no height) with a `TransactionRecord`
value, and a committed `add_transaction` write adds exactly one binding,
keyed by the raw 32-byte transaction id, whose value encodes the bare
`Transaction` (no status or signature). -/
theorem persisted_key_layout (m : List (List Char × Nat)) (st : Store)
    (sha : Bytes → Bytes) (rp : Bytes → Bytes → Bool)
    (ecdsaVerify : Bytes → Bytes → Bytes → Bool) (fuel : Nat) (st2 : Store)
    (fromAddr toAddr : Address) (amount : Amount) (public_key : Bytes)
    (timestamp : Int) (signature : Bytes) (prev : Bytes)
    (r : Except String String) (st2' : Store)
    (hvalid : ∀ e ∈ m, ∃ bs, hexDecode e.1 = some bs ∧ bs.length = 32) :
    (∃ st', load_genesis_transactions m st = .ok st' ∧
      ∀ kv ∈ st', kv ∈ st ∨ ∃ e ∈ m, ∃ addr,
        Address.from_hex e.1 = .ok addr ∧
        kv = (strBytes e.1, StoredValue.recordBytes (genesisRecord addr e.2))) ∧
    (add_transaction sha rp ecdsaVerify fuel st2 fromAddr toAddr amount
        public_key timestamp signature prev = some (r, st2') →
      st2' = st2 ∨
        st2' = storePut st2
          (Transaction.calculate_id sha (mkTransaction fromAddr toAddr amount timestamp prev))
          (.txBytes (mkTransaction fromAddr toAddr amount timestamp prev))) := by
  constructor
  · obtain ⟨st', h1, _, h3, _⟩ := load_genesis_aux m st hvalid
    exact ⟨st', h1, h3⟩
  · intro h
    rcases add_transaction_cases sha rp ecdsaVerify fuel st2 fromAddr toAddr
        amount public_key timestamp signature prev r st2' h with
      ⟨_, hst⟩ | ⟨_, hst⟩
    · exact Or.inl hst
    · exact Or.inr hst

/-- Witness for the amended C9 on manifest `{C: 7}` and an empty-store
admission attempt. -/
theorem persisted_key_layout_witness :
    (∃ st', load_genesis_transactions [(hexC, 7)] [] = .ok st' ∧
      ∀ kv ∈ st', kv ∈ ([] : Store) ∨ ∃ e ∈ [(hexC, 7)], ∃ addr,
        Address.from_hex e.1 = .ok addr ∧
        kv = (strBytes e.1, StoredValue.recordBytes (genesisRecord addr e.2))) ∧
    (add_transaction shaZero rpTrue ecdsaTrue 3 [] addrA addrB (.Public 4)
        pkDummy 0 sigDummy zero32 =
        some (.error "Insufficient balance: Transaction not found", []) →
      ([] : Store) = ([] : Store) ∨
        ([] : Store) = storePut []
          (Transaction.calculate_id shaZero (mkTransaction addrA addrB (.Public 4) 0 zero32))
          (.txBytes (mkTransaction addrA addrB (.Public 4) 0 zero32))) :=
  persisted_key_layout [(hexC, 7)] [] shaZero rpTrue ecdsaTrue 3 [] addrA addrB
    (.Public 4) pkDummy 0 sigDummy zero32
    (.error "Insufficient balance: Transaction not found") []
    (by
      intro e he
      simp only [List.mem_singleton] at he
      subst he
      exact ⟨addrC, by decide, by decide⟩)

/-- C10: `get_all_transaction_ids` copies every key into a 32-byte array:
it returns `Ok` when every key in the database is exactly 32 bytes long,
and panics (rather than returning an error) as soon as any key — such as
the hex-address-string keys written by `load_genesis_transactions` — has a
different length. -/
theorem get_all_transaction_ids_totality :
    (∀ st : Store, (∀ kv ∈ st, (kv.1 : Bytes).length = 32) →
      ∃ ids, get_all_transaction_ids st = .ok ids) ∧
    (∀ st : Store, (∃ kv ∈ st, (kv.1 : Bytes).length ≠ 32) →
      ∃ msg, get_all_transaction_ids st = .panicked msg) :=
  ⟨get_all_ids_ok_of_all32, get_all_ids_panics_of_bad⟩

/-- Witness for C10: the genesis store of `{A: 100}` has a 64-byte key, so
the enumeration panics. -/
theorem get_all_transaction_ids_totality_witness :
    (∃ kv ∈ st1, (kv.1 : Bytes).length ≠ 32) ∧
    (∃ msg, get_all_transaction_ids st1 = .panicked msg) :=
  ⟨⟨(strBytes hexA, .recordBytes (genesisRecord addrA 100)), by decide, by decide⟩,
    get_all_transaction_ids_totality.2 st1
      ⟨(strBytes hexA, .recordBytes (genesisRecord addrA 100)), by decide, by decide⟩⟩

end Enoki
